import Mathlib

/-!
Verification of the ai-news-bot content-curation pipeline.

Shallow embedding of the collection pipeline of src/main.py,
src/gnews_client.py and src/site_scraper.py.  Network calls (GNews API,
trafilatura download, the Gemini generative dependency, the GitHub
persistence store) are modelled as explicit function parameters; Python
strings are modelled as Lean String, with the character-level operations
(strip, slicing, lower) written out on the underlying character list so
that every definition evaluates on concrete inputs.
-/

namespace NewsBot

/-- A candidate article record, the dictionary shape produced by
gnews_client._parse_articles / the site scrapers and mutated by the
enrichment stages of main.py.  `summary` is the parsed summary JSON
object, modelled as an association list of field name to field content;
`[]` stands for the absent / empty dict. -/
structure Article where
  title : String
  description : String
  url : String
  source : String
  published_at : String
  category : String
  content : String
  summary : List (String × String)
deriving DecidableEq, Repr

/-- Python str.strip() (whitespace removed from both ends), written on the
character list. -/
def pyStrip (s : String) : String :=
  String.mk (((s.data.dropWhile Char.isWhitespace).reverse.dropWhile Char.isWhitespace).reverse)

/-- Python s[:n] (slicing by code points), written on the character list. -/
def pySlice (s : String) (n : Nat) : String :=
  String.mk (s.data.take n)

/-- The suffix of a character list after the first occurrence of "://",
when there is one.  Used to model urlparse splitting scheme and
authority from the rest of a URL. -/
def afterSchemeSep : List Char → Option (List Char)
  | [] => none
  | c :: cs =>
    if c = ':' ∧ cs.take 2 = ['/', '/'] then some (cs.drop 2)
    else afterSchemeSep cs

/-- urlparse(url).path as used by the dedup code: for scheme://host/path
URLs the path starts at the first slash after the authority; a string
with no "://" is taken as already being a path; the query (after a
question mark) and the fragment (after a hash) are stripped. -/
def urlPathChars (url : String) : List Char :=
  let stripTail := fun cs : List Char => cs.takeWhile (fun c => !(c == '?') && !(c == '#'))
  match afterSchemeSep url.data with
  | some rest => stripTail (rest.dropWhile (fun c => !(c == '/')))
  | none => stripTail url.data

/-- Python path.rstrip("/"), written on the character list. -/
def rstripSlash (cs : List Char) : List Char :=
  (cs.reverse.dropWhile (fun c => c == '/')).reverse

/-- main.py _normalize_url_path: urlparse(url).path.rstrip("/"), the
domain-independent form of a URL used to catch cross-domain syndication
of one story. -/
def _normalize_url_path (url : String) : String :=
  String.mk (rstripSlash (urlPathChars url))

/-- main.py _title_prefix with its default length 20:
title.strip()[:20].strip(). -/
def _title_prefix20 (title : String) : String :=
  pyStrip (pySlice (pyStrip title) 20)

/-- main.py _is_duplicate: an article is a duplicate of the history sets
when its URL is an already seen URL, or its normalized non-empty URL path
is an already seen path, or its non-empty 20-character title head is an
already seen one.  The Python sets are modelled as lists with membership
by List.contains. -/
def _is_duplicate (article : Article) (prev_urls prev_url_paths prev_title_prefixes : List String) : Bool :=
  if prev_urls.contains article.url then true
  else
    let path := _normalize_url_path article.url
    if !(path == "") && prev_url_paths.contains path then true
    else
      let keyHead := _title_prefix20 article.title
      !(keyHead == "") && prev_title_prefixes.contains keyHead

/-- The drop condition of claim C2 exactly as the claim words it: exact
URL equality, or path-normalized URL equality with paths shorter than a
minimum length excluded, or equality of the trimmed title prefix (with no
length exclusion on the title signal).  Written from the claim text, to
be compared with _is_duplicate. -/
def claimDropSignals (minPathLen : Nat) (article : Article)
    (prev_urls prev_url_paths prev_title_prefixes : List String) : Prop :=
  article.url ∈ prev_urls
    ∨ (minPathLen ≤ (_normalize_url_path article.url).length
        ∧ _normalize_url_path article.url ∈ prev_url_paths)
    ∨ _title_prefix20 article.title ∈ prev_title_prefixes

/-- An all-whitespace-title article whose URL has an empty path: its
20-character title head is the empty string. -/
def blankTitleArticle : Article :=
  { title := " ", description := "", url := "https://example.com",
    source := "X", published_at := "", category := "", content := "", summary := [] }

/-- Modelled from the spec: the preference updater that derives
learning_phase from len(selectionHistory) is the scheduled external job
that rewrites user_preferences.json; it is not among the files of this
repository, whose src/main.py only loads the resulting field
(load_user_preferences) and consumes it (collect_candidates).  Spec:
less than 3 entries give phase 0, 3 to 6 give phase 1, 7 to 13 give
phase 2, 14 or more give phase 3. -/
def learning_phase (historyLength : Nat) : Nat :=
  if historyLength < 3 then 0
  else if historyLength < 7 then 1
  else if historyLength < 14 then 2
  else 3

/-- main.py parse_filtered_articles, inner loop.  The regex scan of the
Gemini free-text response for URL: tokens is abstracted: the first
argument of the wrapper below is the list of URL tokens of the response,
in order of occurrence.  A token already in the seen set is skipped;
otherwise it is marked seen and matched by exact URL equality against the
candidate list, appending the first matching candidate; a token matching
no candidate contributes nothing. -/
def parseFilteredGo (orig : List Article) : List String → List String → List Article
  | [], _ => []
  | t :: ts, seen =>
    if seen.contains t then parseFilteredGo orig ts seen
    else
      match orig.find? (fun a => a.url == t) with
      | some a => a :: parseFilteredGo orig ts (t :: seen)
      | none => parseFilteredGo orig ts (t :: seen)

/-- main.py parse_filtered_articles: select, from the original candidate
list, the articles whose URL appears as a URL: token of the ranking
response, first occurrence per URL. -/
def parse_filtered_articles (responseTokens : List String) (orig : List Article) : List Article :=
  parseFilteredGo orig responseTokens []

/-- main.py generate_summaries, pause schedule.  The loop enumerates the
articles from 1; before request i, when i > 1 and (i - 1) % rate_limit
== 0, it sleeps 60 seconds and sets rate_limit to 5.  This walks the
request indices carrying rate_limit and collects the indices before
which the sleep happens. -/
def summPausesGo : List Nat → Nat → List Nat
  | [], _ => []
  | i :: is, rl =>
    if 1 < i ∧ (i - 1) % rl = 0 then i :: summPausesGo is 5 else summPausesGo is rl

/-- The 1-based request indices at which generate_summaries pauses for
its 60-second cool-down when n articles are summarized, started with the
default rate_limit of 4. -/
def summaryPauses (n : Nat) : List Nat :=
  summPausesGo (List.range' 1 n) 4

/-- Python kw in text (substring containment), written on character
lists. -/
def charsContain (pat : List Char) : List Char → Bool
  | [] => pat.isEmpty
  | c :: cs => pat.isPrefixOf (c :: cs) || charsContain pat cs

/-- Python s.lower(), written on the character list (ASCII lowering, the
shape the keyword filters rely on). -/
def pyLower (s : String) : String :=
  String.mk (s.data.map Char.toLower)

/-- gnews_client _url_path: urlparse(url).path.rstrip("/"); the same
computation as main.py _normalize_url_path. -/
def _url_path (url : String) : String :=
  _normalize_url_path url

/-- The three in-batch seen-sets of collect_multi_category_articles:
existing_urls, existing_url_paths and existing_title_prefixes, modelled
as lists. -/
structure SeenState where
  urls : List String
  paths : List String
  titleHeads : List String
deriving Repr

/-- gnews_client _is_seen: the article matches the batch on URL, on a
URL path longer than 5 characters, or on a non-empty 20-character
title head. -/
def _is_seen (s : SeenState) (a : Article) : Bool :=
  if s.urls.contains a.url then true
  else
    let path := _url_path a.url
    if !(path == "") && decide (5 < path.length) && s.paths.contains path then true
    else
      let keyHead := _title_prefix20 a.title
      !(keyHead == "") && s.titleHeads.contains keyHead

/-- gnews_client _mark_seen: the URL and its path are always recorded,
the title head only when non-empty. -/
def _mark_seen (s : SeenState) (a : Article) : SeenState :=
  let keyHead := _title_prefix20 a.title
  { urls := a.url :: s.urls
    paths := _url_path a.url :: s.paths
    titleHeads := if keyHead == "" then s.titleHeads else keyHead :: s.titleHeads }

/-- One article of the AI keyword-group loop of
collect_multi_category_articles: skip when seen, otherwise mark seen,
set the category and append. -/
def acceptAI (st : SeenState × List Article) (a : Article) : SeenState × List Article :=
  if _is_seen st.1 a then st
  else (_mark_seen st.1 a, st.2 ++ [{ a with category := "AI・テクノロジー" }])

/-- One article of the finance / politics loops of
collect_multi_category_articles: skip when seen; otherwise keep only
when the lowered title-plus-description text holds one of the filter
words, marking seen and setting the category. -/
def acceptFiltered (cat : String) (words : List String) (st : SeenState × List Article)
    (a : Article) : SeenState × List Article :=
  if _is_seen st.1 a then st
  else
    let text := pyLower (a.title ++ " " ++ a.description)
    if words.any (fun kw => charsContain kw.data text.data) then
      (_mark_seen st.1 a, st.2 ++ [{ a with category := cat }])
    else st

def FINANCE_MARKER_WORDS : List String :=
  ["日銀", "利上げ", "雇用統計", "インフレ", "金融政策", "GDP", "為替",
   "株価", "経済", "金利", "円安", "円高", "財政", "景気"]

def POLITICS_MARKER_WORDS : List String :=
  ["衆院選", "選挙", "国会", "政策", "外交", "安全保障", "法案",
   "政治", "与党", "野党", "内閣", "フェイク"]

/-- gnews_client _classify_keyword: first matching marker list wins,
where matching is substring containment in either direction. -/
def _classify_keyword (kw : String) : String :=
  if FINANCE_MARKER_WORDS.any (fun m => charsContain m.data kw.data || charsContain kw.data m.data)
  then "finance"
  else if POLITICS_MARKER_WORDS.any (fun m => charsContain m.data kw.data || charsContain kw.data m.data)
  then "politics"
  else "ai"

def FINANCE_FILTER_WORDS : List String :=
  ["日銀", "金融", "為替", "GDP", "株", "経済", "利上げ", "円安",
   "円高", "金利", "インフレ", "景気", "財政", "FRB", "物価",
   "債券", "投資", "市場", "指標", "雇用", "貿易"]

def POLITICS_FILTER_WORDS : List String :=
  ["国会", "選挙", "外交", "法案", "内閣", "首脳", "安全保障",
   "政治", "与党", "野党", "政権", "首相", "大統領", "条約",
   "防衛", "議会", "政策", "大臣", "関税", "制裁"]

/-- The four GNews API results consumed by
collect_multi_category_articles, supplied as inputs: the two AI keyword
group searches, the business top-headlines call and the general
top-headlines call.  The per-call article caps computed from
total_articles only shape these network results. -/
structure GNewsFetched where
  aiGroup1 : List Article
  aiGroup2 : List Article
  finance : List Article
  politics : List Article

/-- The all_finance_words set of collect_multi_category_articles: the
curated filter words plus the finance-classified boosted keywords
(the Python set only feeds an any-test, which is order- and
duplicate-insensitive, so the union is modelled as concatenation). -/
def financeWords (boosted_keywords : List String) : List String :=
  FINANCE_FILTER_WORDS ++ boosted_keywords.filter (fun kw => _classify_keyword kw == "finance")

/-- The all_politics_words set of collect_multi_category_articles. -/
def politicsWords (boosted_keywords : List String) : List String :=
  POLITICS_FILTER_WORDS ++ boosted_keywords.filter (fun kw => _classify_keyword kw == "politics")

/-- The AI section of collect_multi_category_articles: both keyword-group
results folded through the seen-sets, gated on ai_ratio > 0. -/
def aiStage (fetched : GNewsFetched) (ai_ratio : ℚ) (st : SeenState × List Article) :
    SeenState × List Article :=
  if 0 < ai_ratio then (fetched.aiGroup1 ++ fetched.aiGroup2).foldl acceptAI st else st

/-- The finance section: the business top-headlines results folded
through the seen-sets with the finance keyword post-filter, gated on
finance_ratio > 0. -/
def financeStage (fetched : GNewsFetched) (boosted_keywords : List String)
    (finance_ratio : ℚ) (st : SeenState × List Article) : SeenState × List Article :=
  if 0 < finance_ratio
  then fetched.finance.foldl (acceptFiltered "経済・金融" (financeWords boosted_keywords)) st
  else st

/-- The politics section: the general top-headlines results folded
through the seen-sets with the politics keyword post-filter, gated on
politics_ratio > 0. -/
def politicsStage (fetched : GNewsFetched) (boosted_keywords : List String)
    (politics_ratio : ℚ) (st : SeenState × List Article) : SeenState × List Article :=
  if 0 < politics_ratio
  then fetched.politics.foldl (acceptFiltered "政治・政策" (politicsWords boosted_keywords)) st
  else st

/-- gnews_client collect_multi_category_articles: the AI, finance and
politics sections run in that order over the shared seen-sets, each
gated on its category-distribution ratio being positive (the ratios are
the JSON numbers of search_config.category_distribution, modelled as
rationals). -/
def collect_multi_category_articles (fetched : GNewsFetched)
    (boosted_keywords : List String) (ai_ratio finance_ratio politics_ratio : ℚ) :
    List Article :=
  (politicsStage fetched boosted_keywords politics_ratio
    (financeStage fetched boosted_keywords finance_ratio
      (aiStage fetched ai_ratio ((⟨[], [], []⟩ : SeenState), ([] : List Article))))).2

/-- Two articles share one of the three dedup signals of the batch
collector: equal URL, equal normalized URL path of length above the
5-character threshold, or equal non-empty trimmed 20-character title
prefix. -/
def sharesSignal (a b : Article) : Prop :=
  a.url = b.url
    ∨ (_url_path a.url = _url_path b.url ∧ 5 < (_url_path a.url).length)
    ∨ (_title_prefix20 a.title = _title_prefix20 b.title ∧ _title_prefix20 a.title ≠ "")

/-- The within-batch invariant of collect_multi_category_articles: the
accepted list is pairwise signal-free, and every accepted article is
recorded in the seen-sets (its title head only when non-empty, as
_mark_seen records it). -/
def BatchInv (st : SeenState × List Article) : Prop :=
  st.2.Pairwise (fun a b => ¬ sharesSignal a b)
    ∧ ∀ a ∈ st.2,
        a.url ∈ st.1.urls ∧ _url_path a.url ∈ st.1.paths
          ∧ (_title_prefix20 a.title ≠ "" → _title_prefix20 a.title ∈ st.1.titleHeads)

/-- A pair of distinct AI-section candidates with all-whitespace titles
(so empty trimmed title prefixes) and distinct URLs with empty paths. -/
def blankA1 : Article :=
  { title := " ", description := "", url := "https://a.example", source := "s1",
    published_at := "", category := "", content := "", summary := [] }

def blankA2 : Article :=
  { title := " ", description := "", url := "https://b.example", source := "s2",
    published_at := "", category := "", content := "", summary := [] }

def blankFetched : GNewsFetched :=
  { aiGroup1 := [blankA1], aiGroup2 := [blankA2], finance := [], politics := [] }

/-- The outcome of the trafilatura fetch-and-extract for one URL, with
the network and the extractor as inputs (net : url to downloaded page,
none when fetch_url returns falsy or raises; ext : page to extracted
body text, none when extract returns falsy).  The code drops the
article when the download fails, the extraction fails, or the text is
shorter than 100 characters, and otherwise keeps the first 5000
characters.  Python `not text or len(text) < 100` equals this because
the empty string has length 0 < 100. -/
def fetchUrlText (net ext : String → Option String) (url : String) : Option String :=
  match net url with
  | none => none
  | some downloaded =>
    match ext downloaded with
    | none => none
    | some text => if text.length < 100 then none else some (pySlice text 5000)

/-- main.py _fetch_one_article: on success the article with content set
to the first 5000 characters of the extracted text, otherwise none.
The result only depends on the URL, which the drop theorems below use. -/
def _fetch_one_article (net ext : String → Option String) (a : Article) : Option Article :=
  (fetchUrlText net ext a.url).map (fun t => { a with content := t })

/-- main.py fetch_article_contents: the bounded-parallel map keeping the
successful fetches; the as_completed completion order is abstracted to
input order (the claims proved about this stage are membership
statements, which the order does not affect). -/
def fetch_article_contents (net ext : String → Option String) (arts : List Article) :
    List Article :=
  arts.filterMap (_fetch_one_article net ext)

/-- main.py generate_summaries together with the keep-test on the
generate_summary result.  rawSummary a is the JSON object parsed out of
the Gemini response for a (none when the request raised, no braced
block was found in the response, or json.loads failed); generate_summary
returns that object without validating any field.  An article is kept
only when the object is truthy, i.e. non-empty, and the object is then
stored on the article. -/
def generate_summaries (rawSummary : Article → Option (List (String × String)))
    (arts : List Article) : List Article :=
  arts.filterMap (fun a =>
    match rawSummary a with
    | none => none
    | some s => if s = [] then none else some { a with summary := s })

/-- Stage 1.5 of main.py collect_candidates: the multi-signal dedup
against the previous days' candidates, applied only when the loaded URL
set or the loaded title set is non-empty. -/
def dedupStage (arts : List Article) (prevU prevP prevT : List String) : List Article :=
  if !prevU.isEmpty || !prevT.isEmpty
  then arts.filter (fun a => !(_is_duplicate a prevU prevP prevT))
  else arts

/-- main.py collect_candidates with the external effects as inputs:
gnewsArticles is the collect_multi_category_articles result (Stage 1),
prevU, prevP and prevT the load_previous_candidates sets (Stage 1.5),
net and ext drive the content fetch (Stage 2), responseTokens are the
URL tokens of the Gemini filtering response (Stage 3) and rawSummary the
parsed summary object per article (Stage 4).  Each stage ending with
zero articles makes the function return none, mirroring the early
return-None paths of the code. -/
def collect_candidates (gnewsArticles : List Article) (prevU prevP prevT : List String)
    (net ext : String → Option String) (responseTokens : List String)
    (rawSummary : Article → Option (List (String × String))) : Option (List Article) :=
  if gnewsArticles.isEmpty then none
  else
    let fetched := fetch_article_contents net ext (dedupStage gnewsArticles prevU prevP prevT)
    if fetched.isEmpty then none
    else
      let selected := parse_filtered_articles responseTokens fetched
      if selected.isEmpty then none
      else
        let summarized := generate_summaries rawSummary selected
        if summarized.isEmpty then none
        else some summarized

/-- The observable outcome of main.py run_candidate_mode: the returned
success flag and message, and the article batch pushed to the
news/<date>-candidates.json store, none when nothing was written. -/
structure RunOutcome where
  success : Bool
  message : String
  persisted : Option (List Article)
deriving Repr

/-- main.py run_candidate_mode on the collect_candidates result: a falsy
result (none or the empty list) makes the run return failure with the
message "No candidates collected" before anything is pushed; otherwise
the batch is pushed and the run succeeds. -/
def run_candidate_mode (res : Option (List Article)) : RunOutcome :=
  match res with
  | none => ⟨false, "No candidates collected", none⟩
  | some [] => ⟨false, "No candidates collected", none⟩
  | some (a :: rest) => ⟨true, "Saved", some (a :: rest)⟩

/-- The four summary fields the prompt asks Gemini for. -/
def fourSummaryFields : List String :=
  ["headline", "key_points", "detailed_summary", "why_it_matters"]

/-- A parsed summary object holds all four structured fields. -/
def hasAllSummaryFields (s : List (String × String)) : Prop :=
  ∀ f ∈ fourSummaryFields, f ∈ s.map Prod.fst

/-- A fetched article about to be summarized. -/
def summaryCexArticle : Article :=
  { title := "t", description := "", url := "https://e.example/x", source := "s",
    published_at := "", category := "AI・テクノロジー", content := "body", summary := [] }

/-- site_scraper.py collect_site_articles, recency post-filter (the
stage right after within-batch dedup): keep an article when its
published_at is empty (falsy) or at least the cutoff date string. -/
def recency_post_filter (cutoff : String) (arts : List Article) : List Article :=
  arts.filter (fun a => (a.published_at == "") || decide (cutoff ≤ a.published_at))

theorem contains_iff_mem (l : List String) (s : String) : l.contains s = true ↔ s ∈ l := by
  simp [List.contains]

theorem ne_empty_iff_one_le_length (s : String) : ¬ s = "" ↔ 1 ≤ s.length := by
  constructor
  · intro h
    cases s with
    | mk data =>
      cases data with
      | nil => exact absurd rfl h
      | cons c cs => simp [String.length]
  · intro h he
    subst he
    simp [String.length] at h

/-- C2 counterexample: for the blank-title article and history sets with
an empty stored title prefix, the claim as stated demands a drop (signal
3, equality of the trimmed title prefix, matches), but _is_duplicate
keeps the article: the code never drops on an empty trimmed title head. -/
theorem c2_counterexample_blank_title :
    claimDropSignals 1 blankTitleArticle [] [] [""]
      ∧ _is_duplicate blankTitleArticle [] [] [""] = false := by
  constructor
  · unfold claimDropSignals
    decide
  · decide

/-- C2 (amended): _is_duplicate drops an article precisely when one of
the three signals matches — exact URL equality, path-normalized URL
equality with paths shorter than the one-character minimum excluded, or
equality of the trimmed 20-character title prefix where empty trimmed
prefixes are likewise excluded; a single signal suffices and no
similarity score is used. -/
theorem c2_is_duplicate_iff_signals (a : Article) (prevU prevP prevT : List String) :
    _is_duplicate a prevU prevP prevT = true ↔
      (a.url ∈ prevU
        ∨ (1 ≤ (_normalize_url_path a.url).length ∧ _normalize_url_path a.url ∈ prevP)
        ∨ (1 ≤ (_title_prefix20 a.title).length ∧ _title_prefix20 a.title ∈ prevT)) := by
  have hpath := ne_empty_iff_one_le_length (_normalize_url_path a.url)
  have htitle := ne_empty_iff_one_le_length (_title_prefix20 a.title)
  simp only [_is_duplicate]
  by_cases h1 : a.url ∈ prevU
  · simp [List.contains, h1]
  · by_cases h2 : _normalize_url_path a.url ∈ prevP <;>
      by_cases h3 : _normalize_url_path a.url = "" <;>
      by_cases h4 : _title_prefix20 a.title ∈ prevT <;>
      by_cases h5 : _title_prefix20 a.title = "" <;>
      simp [List.contains, h1, h2, h3, h4, h5, ← hpath, ← htitle]

/-- C1: the learning phase is derived purely from the length of the
selection history: length below 3 yields phase 0, 3 to 6 yields phase 1,
7 to 13 yields phase 2, 14 and above yields phase 3; in particular
length 2 gives 0, 3 gives 1, 7 gives 2 and 14 gives 3. -/
theorem c1_learning_phase_boundaries (n : Nat) :
    (n < 3 → learning_phase n = 0)
      ∧ (3 ≤ n ∧ n ≤ 6 → learning_phase n = 1)
      ∧ (7 ≤ n ∧ n ≤ 13 → learning_phase n = 2)
      ∧ (14 ≤ n → learning_phase n = 3)
      ∧ learning_phase 2 = 0 ∧ learning_phase 3 = 1
      ∧ learning_phase 7 = 2 ∧ learning_phase 14 = 3 := by
  refine ⟨fun h => ?_, fun h => ?_, fun h => ?_, fun h => ?_,
    by decide, by decide, by decide, by decide⟩ <;>
    simp only [learning_phase] <;> split <;> first | rfl | (split <;> first | rfl | (split <;> first | rfl | omega) | omega) | omega

theorem contains_cons (x s : String) (l : List String) :
    (s :: l).contains x = ((x == s) || l.contains x) := by
  by_cases h : x = s <;> simp [List.contains, List.elem_cons, h]

theorem parseFilteredGo_mem (orig : List Article) (ts : List String) (seen : List String)
    (a : Article) (h : a ∈ parseFilteredGo orig ts seen) : a ∈ orig ∧ a.url ∈ ts := by
  induction ts generalizing seen with
  | nil => simp [parseFilteredGo] at h
  | cons t ts ih =>
    simp only [parseFilteredGo] at h
    by_cases hc : seen.contains t
    · rw [if_pos hc] at h
      rcases ih seen h with ⟨h1, h2⟩
      exact ⟨h1, List.mem_cons_of_mem _ h2⟩
    · rw [if_neg hc] at h
      cases hf : orig.find? (fun b => b.url == t) with
      | some b =>
        rw [hf] at h
        rcases List.mem_cons.mp h with h | h
        · subst h
          refine ⟨List.mem_of_find?_eq_some hf, ?_⟩
          have := List.find?_some hf
          have : a.url = t := by simpa using this
          simp [this]
        · rcases ih _ h with ⟨h1, h2⟩
          exact ⟨h1, List.mem_cons_of_mem _ h2⟩
      | none =>
        rw [hf] at h
        rcases ih _ h with ⟨h1, h2⟩
        exact ⟨h1, List.mem_cons_of_mem _ h2⟩

theorem parseFilteredGo_fresh_nodup (orig : List Article) (ts : List String) (seen : List String) :
    (∀ a ∈ parseFilteredGo orig ts seen, seen.contains a.url = false)
      ∧ ((parseFilteredGo orig ts seen).map Article.url).Nodup := by
  induction ts generalizing seen with
  | nil => simp [parseFilteredGo]
  | cons t ts ih =>
    simp only [parseFilteredGo]
    by_cases hc : seen.contains t
    · rw [if_pos hc]
      exact ih seen
    · rw [if_neg hc]
      have hcons : ∀ x : String, (t :: seen).contains x = ((x == t) || seen.contains x) :=
        fun x => contains_cons x t seen
      cases hf : orig.find? (fun b => b.url == t) with
      | some b =>
        have hbt : b.url = t := by simpa using List.find?_some hf
        rcases ih (t :: seen) with ⟨hfresh, hnodup⟩
        constructor
        · intro a ha
          rcases List.mem_cons.mp ha with ha | ha
          · subst ha
            rw [hbt]
            exact Bool.eq_false_iff.mpr hc
          · have := hfresh a ha
            rw [hcons] at this
            exact (Bool.or_eq_false_iff.mp this).2
        · simp only [List.map_cons, List.nodup_cons]
          refine ⟨?_, hnodup⟩
          intro hmem
          rcases List.mem_map.mp hmem with ⟨a, ha, hau⟩
          have := hfresh a ha
          rw [hcons] at this
          have ht : (a.url == t) = false := (Bool.or_eq_false_iff.mp this).1
          rw [hau, hbt] at ht
          simp at ht
      | none =>
        rcases ih (t :: seen) with ⟨hfresh, hnodup⟩
        refine ⟨?_, hnodup⟩
        intro a ha
        have := hfresh a ha
        rw [hcons] at this
        exact (Bool.or_eq_false_iff.mp this).2

theorem parseFilteredGo_drop_unmatched (orig : List Article) (t : String)
    (hnone : ∀ b ∈ orig, b.url ≠ t) (ts : List String) (seen1 seen2 : List String)
    (hrel : ∀ s : String, s ≠ t → seen1.contains s = seen2.contains s) :
    parseFilteredGo orig ts seen1
      = parseFilteredGo orig (ts.filter (fun s => !(s == t))) seen2 := by
  induction ts generalizing seen1 seen2 with
  | nil => simp [parseFilteredGo]
  | cons s ts ih =>
    by_cases hst : s = t
    · subst hst
      have hfilter : (s :: ts).filter (fun x => !(x == s)) = ts.filter (fun x => !(x == s)) := by
        simp [List.filter_cons]
      rw [hfilter]
      have hfind : orig.find? (fun a => a.url == s) = none := by
        rw [List.find?_eq_none]
        intro b hb
        simpa using hnone b hb
      simp only [parseFilteredGo, hfind]
      by_cases hc : seen1.contains s
      · rw [if_pos hc]
        exact ih seen1 seen2 hrel
      · rw [if_neg hc]
        refine ih (s :: seen1) seen2 ?_
        intro x hx
        rw [contains_cons x s seen1]
        have hxs : (x == s) = false := by simpa using hx
        rw [hxs, Bool.false_or]
        exact hrel x hx
    · have hfilter : (s :: ts).filter (fun x => !(x == t)) = s :: ts.filter (fun x => !(x == t)) := by
        simp [List.filter_cons, hst]
      rw [hfilter]
      simp only [parseFilteredGo]
      rw [← hrel s hst]
      by_cases hc : seen1.contains s
      · rw [if_pos hc, if_pos hc]
        exact ih seen1 seen2 hrel
      · rw [if_neg hc, if_neg hc]
        have hrel2 : ∀ x : String, x ≠ t → (s :: seen1).contains x = (s :: seen2).contains x := by
          intro x hx
          rw [contains_cons x s seen1, contains_cons x s seen2, hrel x hx]
        rw [ih (s :: seen1) (s :: seen2) hrel2]

theorem parseFilteredGo_dup_token (orig : List Article) (ts : List String)
    (seen : List String) (t : String) (h : t ∈ ts ∨ seen.contains t = true) :
    parseFilteredGo orig (ts ++ [t]) seen = parseFilteredGo orig ts seen := by
  induction ts generalizing seen with
  | nil =>
    have hc : seen.contains t = true := by
      rcases h with h | h
      · simp at h
      · exact h
    simp only [List.nil_append, parseFilteredGo, hc, if_true]
  | cons s ts ih =>
    simp only [List.cons_append, parseFilteredGo, List.append_eq]
    by_cases hc : seen.contains s
    · rw [if_pos hc, if_pos hc]
      refine ih seen ?_
      rcases h with h | h
      · rcases List.mem_cons.mp h with h | h
        · subst h
          exact Or.inr hc
        · exact Or.inl h
      · exact Or.inr h
    · rw [if_neg hc, if_neg hc]
      have hnext : t ∈ ts ∨ (s :: seen).contains t = true := by
        rcases h with h | h
        · rcases List.mem_cons.mp h with h | h
          · rw [contains_cons t s seen]
            simp [h]
          · exact Or.inl h
        · rw [contains_cons t s seen, h]
          simp
      rw [ih (s :: seen) hnext]

/-- C3: every article the ranking-response parser returns is an element
of the input candidate list, matched by exact URL equality against a URL
token of the response; a token equal to no candidate URL contributes
nothing; only the first occurrence of each URL token is taken, so the
output never holds two articles with the same URL — the selector never
fabricates items. -/
theorem c3_parser_never_fabricates (responseTokens : List String) (orig : List Article) (t : String) :
    (∀ a ∈ parse_filtered_articles responseTokens orig, a ∈ orig ∧ a.url ∈ responseTokens)
      ∧ ((parse_filtered_articles responseTokens orig).map Article.url).Nodup
      ∧ ((∀ b ∈ orig, b.url ≠ t) →
          parse_filtered_articles responseTokens orig
            = parse_filtered_articles (responseTokens.filter (fun s => !(s == t))) orig)
      ∧ (t ∈ responseTokens →
          parse_filtered_articles (responseTokens ++ [t]) orig
            = parse_filtered_articles responseTokens orig) := by
  refine ⟨fun a ha => parseFilteredGo_mem orig responseTokens [] a ha,
    (parseFilteredGo_fresh_nodup orig responseTokens []).2,
    fun hnone => ?_, fun hmem => ?_⟩
  · exact parseFilteredGo_drop_unmatched orig t hnone responseTokens [] [] (fun _ _ => rfl)
  · exact parseFilteredGo_dup_token orig responseTokens [] t (Or.inl hmem)

/-- C4 counterexample: with six articles the code pauses before request
5 and again before request 6, while the claim allows a pause only before
requests 5, 10, 15, ... and only one pause directly after the initial
burst. -/
theorem c4_counterexample_sixth_request :
    summaryPauses 6 = [5, 6] ∧ (6 : Nat) % 5 ≠ 0 := by decide

theorem summPausesGo_steady (is : List Nat) (hall : ∀ i ∈ is, 6 ≤ i) :
    summPausesGo is 5 = is.filter (fun i => (i - 1) % 5 == 0) := by
  induction is with
  | nil => rfl
  | cons i is ih =>
    have hi : 6 ≤ i := hall i (List.mem_cons_self i is)
    have hrec := ih (fun j hj => hall j (List.mem_cons_of_mem i hj))
    simp only [summPausesGo, List.filter_cons]
    by_cases hm : (i - 1) % 5 = 0
    · rw [if_pos ⟨by omega, hm⟩, hrec]
      simp [hm]
    · rw [if_neg (fun hcon => hm hcon.2), hrec]
      simp [hm]

theorem summPausesGo_first_five (rest : List Nat) :
    summPausesGo (1 :: 2 :: 3 :: 4 :: 5 :: rest) 4 = 5 :: summPausesGo rest 5 := by
  simp [summPausesGo]

/-- C4 (amended): the fixed 60-second cool-down happens before request 5
(directly after the initial burst of 4), then again before request 6,
and from there on precisely before requests 11, 16, 21, ...: for i of at
least 6, a pause happens before request i exactly when i - 1 is a
multiple of 5. -/
theorem c4_pause_schedule (n i : Nat) :
    i ∈ summaryPauses n ↔ (i ≤ n ∧ (i = 5 ∨ (6 ≤ i ∧ (i - 1) % 5 = 0))) := by
  by_cases h5 : 5 ≤ n
  · have happ := List.range'_append 1 5 (n - 5) 1
    have hn : (n - 5) + 5 = n := by omega
    rw [Nat.one_mul] at happ
    rw [hn] at happ
    have hsplit : List.range' 1 n = [1, 2, 3, 4, 5] ++ List.range' 6 (n - 5) := by
      rw [← happ]
      rfl
    have hsix : ∀ j ∈ List.range' 6 (n - 5), 6 ≤ j := by
      intro j hj
      exact (List.mem_range'_1.mp hj).1
    rw [summaryPauses, hsplit]
    rw [show ([1, 2, 3, 4, 5] ++ List.range' 6 (n - 5)) = (1 :: 2 :: 3 :: 4 :: 5 :: List.range' 6 (n - 5)) from rfl]
    rw [summPausesGo_first_five, summPausesGo_steady _ hsix]
    simp only [List.mem_cons, List.mem_filter, List.mem_range'_1, beq_iff_eq]
    omega
  · have hempty : summaryPauses n = [] := by
      have hn : n < 5 := by omega
      interval_cases n <;> rfl
    rw [hempty]
    simp only [List.not_mem_nil, false_iff]
    omega

theorem is_seen_eq (s : SeenState) (a : Article) :
    _is_seen s a =
      (s.urls.contains a.url
        || (!(_url_path a.url == "") && decide (5 < (_url_path a.url).length)
            && s.paths.contains (_url_path a.url))
        || (!(_title_prefix20 a.title == "") && s.titleHeads.contains (_title_prefix20 a.title))) := by
  have hbeq : ∀ x y : String, (x == y) = decide (x = y) := by
    intro x y
    by_cases h : x = y <;> simp [h]
  unfold _is_seen
  by_cases h1 : s.urls.contains a.url <;>
    by_cases h2 : (!(_url_path a.url == "") && decide (5 < (_url_path a.url).length)
      && s.paths.contains (_url_path a.url)) <;>
    simp [h1, h2, hbeq, Bool.or_assoc]

theorem is_seen_false_parts (s : SeenState) (a : Article) (h : _is_seen s a = false) :
    a.url ∉ s.urls
      ∧ (5 < (_url_path a.url).length → _url_path a.url ∉ s.paths)
      ∧ (_title_prefix20 a.title ≠ "" → _title_prefix20 a.title ∉ s.titleHeads) := by
  refine ⟨?_, ?_, ?_⟩
  · intro hmem
    have hb : s.urls.contains a.url = true := (contains_iff_mem _ _).mpr hmem
    have : _is_seen s a = true := by
      rw [is_seen_eq, hb]
      simp
    rw [h] at this
    cases this
  · intro hlen hmem
    have hb : s.paths.contains (_url_path a.url) = true := (contains_iff_mem _ _).mpr hmem
    have hne : (_url_path a.url == "") = false := by
      rw [beq_eq_false_iff_ne]
      intro he
      rw [he] at hlen
      exact absurd hlen (by decide)
    have hd : decide (5 < (_url_path a.url).length) = true := decide_eq_true hlen
    have : _is_seen s a = true := by
      rw [is_seen_eq, hb, hne, hd]
      simp
    rw [h] at this
    cases this
  · intro hne hmem
    have hb : s.titleHeads.contains (_title_prefix20 a.title) = true :=
      (contains_iff_mem _ _).mpr hmem
    have hne2 : (_title_prefix20 a.title == "") = false := beq_eq_false_iff_ne.mpr hne
    have : _is_seen s a = true := by
      rw [is_seen_eq, hb, hne2]
      simp
    rw [h] at this
    cases this

theorem batchInv_accept (st : SeenState × List Article) (a : Article) (c : String)
    (hinv : BatchInv st) (hseen : _is_seen st.1 a = false) :
    BatchInv (_mark_seen st.1 a, st.2 ++ [{ a with category := c }]) := by
  obtain ⟨hpw, hmem⟩ := hinv
  obtain ⟨hu, hp, ht⟩ := is_seen_false_parts st.1 a hseen
  constructor
  · rw [List.pairwise_append]
    refine ⟨hpw, by simp, ?_⟩
    intro b hb x hx
    have hxa : x = { a with category := c } := by simpa using hx
    subst hxa
    intro hshare
    obtain ⟨hbu, hbp, hbt⟩ := hmem b hb
    rcases hshare with h1 | ⟨h2, h2l⟩ | ⟨h3, h3n⟩
    · exact hu (h1 ▸ hbu)
    · have hal : 5 < (_url_path ({ a with category := c } : Article).url).length := h2 ▸ h2l
      exact hp hal (h2 ▸ hbp)
    · have han : _title_prefix20 ({ a with category := c } : Article).title ≠ "" := h3 ▸ h3n
      exact ht han (h3 ▸ hbt h3n)
  · intro x hx
    rcases List.mem_append.mp hx with hx | hx
    · obtain ⟨h1, h2, h3⟩ := hmem x hx
      simp only [_mark_seen]
      refine ⟨List.mem_cons_of_mem _ h1, List.mem_cons_of_mem _ h2, fun hne => ?_⟩
      by_cases ha : (_title_prefix20 a.title == "") = true
      · rw [if_pos ha]
        exact h3 hne
      · rw [if_neg ha]
        exact List.mem_cons_of_mem _ (h3 hne)
    · have hxa : x = { a with category := c } := by simpa using hx
      subst hxa
      simp only [_mark_seen]
      refine ⟨List.mem_cons_self _ _, List.mem_cons_self _ _, fun hne => ?_⟩
      have hbeq : (_title_prefix20 a.title == "") = false := beq_eq_false_iff_ne.mpr hne
      rw [if_neg (by rw [hbeq]; exact Bool.false_ne_true)]
      exact List.mem_cons_self _ _

theorem batchInv_acceptAI (st : SeenState × List Article) (a : Article) (h : BatchInv st) :
    BatchInv (acceptAI st a) := by
  unfold acceptAI
  by_cases hs : _is_seen st.1 a = true
  · rw [if_pos hs]
    exact h
  · rw [if_neg hs]
    exact batchInv_accept st a _ h (by simpa using hs)

theorem batchInv_acceptFiltered (cat : String) (words : List String)
    (st : SeenState × List Article) (a : Article) (h : BatchInv st) :
    BatchInv (acceptFiltered cat words st a) := by
  simp only [acceptFiltered]
  by_cases hs : _is_seen st.1 a = true
  · rw [if_pos hs]
    exact h
  · rw [if_neg hs]
    by_cases hw : words.any
        (fun kw => charsContain kw.data (pyLower (a.title ++ " " ++ a.description)).data) = true
    · rw [if_pos hw]
      exact batchInv_accept st a cat h (by simpa using hs)
    · rw [if_neg hw]
      exact h

theorem batchInv_foldl {f : SeenState × List Article → Article → SeenState × List Article}
    (hf : ∀ st a, BatchInv st → BatchInv (f st a)) (l : List Article) :
    ∀ st, BatchInv st → BatchInv (l.foldl f st) := by
  induction l with
  | nil => exact fun st h => h
  | cons a l ih => exact fun st h => ih (f st a) (hf st a h)

theorem batchInv_aiStage (fetched : GNewsFetched) (ai_ratio : ℚ)
    (st : SeenState × List Article) (h : BatchInv st) : BatchInv (aiStage fetched ai_ratio st) := by
  unfold aiStage
  by_cases hr : 0 < ai_ratio
  · rw [if_pos hr]
    exact batchInv_foldl batchInv_acceptAI _ st h
  · rw [if_neg hr]
    exact h

theorem batchInv_financeStage (fetched : GNewsFetched) (boosted : List String)
    (finance_ratio : ℚ) (st : SeenState × List Article) (h : BatchInv st) :
    BatchInv (financeStage fetched boosted finance_ratio st) := by
  unfold financeStage
  by_cases hr : 0 < finance_ratio
  · rw [if_pos hr]
    exact batchInv_foldl (batchInv_acceptFiltered _ _) _ st h
  · rw [if_neg hr]
    exact h

theorem batchInv_politicsStage (fetched : GNewsFetched) (boosted : List String)
    (politics_ratio : ℚ) (st : SeenState × List Article) (h : BatchInv st) :
    BatchInv (politicsStage fetched boosted politics_ratio st) := by
  unfold politicsStage
  by_cases hr : 0 < politics_ratio
  · rw [if_pos hr]
    exact batchInv_foldl (batchInv_acceptFiltered _ _) _ st h
  · rw [if_neg hr]
    exact h

/-- C5 (amended): in the output of the multi-category batch collector,
no two distinct articles share an exact URL, share a normalized URL path
longer than the 5-character threshold, or share a non-empty trimmed
title prefix; each accepted article populates the seen-sets before later
candidates are checked.  Articles whose trimmed title prefix is empty
are never recorded nor matched on the title signal, so a pair of them
can both survive. -/
theorem c5_within_batch_dedup (fetched : GNewsFetched) (boosted : List String)
    (ai_ratio finance_ratio politics_ratio : ℚ) :
    (collect_multi_category_articles fetched boosted ai_ratio finance_ratio
        politics_ratio).Pairwise (fun a b => ¬ sharesSignal a b) := by
  have h0 : BatchInv ((⟨[], [], []⟩ : SeenState), ([] : List Article)) :=
    ⟨List.Pairwise.nil, by simp⟩
  exact (batchInv_politicsStage fetched boosted politics_ratio _
    (batchInv_financeStage fetched boosted finance_ratio _
      (batchInv_aiStage fetched ai_ratio _ h0))).1

/-- C5 counterexample: both blank-title articles are kept by the batch
collector although the pair shares its (empty) trimmed title prefix, so
the claim as stated — at most one survivor of any pair sharing a trimmed
title prefix — fails on the code. -/
theorem c5_counterexample_blank_titles :
    { blankA1 with category := "AI・テクノロジー" }
        ∈ collect_multi_category_articles blankFetched [] 1 0 0
      ∧ { blankA2 with category := "AI・テクノロジー" }
        ∈ collect_multi_category_articles blankFetched [] 1 0 0
      ∧ ({ blankA1 with category := "AI・テクノロジー" } : Article)
        ≠ { blankA2 with category := "AI・テクノロジー" }
      ∧ _title_prefix20 ({ blankA1 with category := "AI・テクノロジー" } : Article).title
        = _title_prefix20 ({ blankA2 with category := "AI・テクノロジー" } : Article).title := by
  decide

/-- C6: a pipeline stage with zero survivors makes collect_candidates
return the empty outcome (none, and never some of the empty list), the
run is then reported as a failure with the descriptive message and no
batch is persisted; this covers source collection, content fetch,
ranking selection and summarization. -/
theorem c6_empty_stage_fails_run (gnews : List Article) (prevU prevP prevT : List String)
    (net ext : String → Option String) (tokens : List String)
    (raw : Article → Option (List (String × String))) :
    (∀ out, collect_candidates gnews prevU prevP prevT net ext tokens raw = some out → out ≠ [])
      ∧ (collect_candidates gnews prevU prevP prevT net ext tokens raw = none →
          run_candidate_mode (collect_candidates gnews prevU prevP prevT net ext tokens raw)
            = ⟨false, "No candidates collected", none⟩)
      ∧ (gnews = [] → collect_candidates gnews prevU prevP prevT net ext tokens raw = none)
      ∧ (fetch_article_contents net ext (dedupStage gnews prevU prevP prevT) = [] →
          collect_candidates gnews prevU prevP prevT net ext tokens raw = none)
      ∧ (parse_filtered_articles tokens
            (fetch_article_contents net ext (dedupStage gnews prevU prevP prevT)) = [] →
          collect_candidates gnews prevU prevP prevT net ext tokens raw = none)
      ∧ (generate_summaries raw (parse_filtered_articles tokens
            (fetch_article_contents net ext (dedupStage gnews prevU prevP prevT))) = [] →
          collect_candidates gnews prevU prevP prevT net ext tokens raw = none) := by
  by_cases h1 : gnews.isEmpty <;>
    by_cases h2 : (fetch_article_contents net ext
      (dedupStage gnews prevU prevP prevT)).isEmpty <;>
    by_cases h3 : (parse_filtered_articles tokens (fetch_article_contents net ext
      (dedupStage gnews prevU prevP prevT))).isEmpty <;>
    by_cases h4 : (generate_summaries raw (parse_filtered_articles tokens
      (fetch_article_contents net ext (dedupStage gnews prevU prevP prevT)))).isEmpty <;>
    simp_all [collect_candidates, run_candidate_mode, List.isEmpty_iff]

theorem fetch_success_of_mem (net ext : String → Option String) (arts : List Article)
    (c : Article) (h : c ∈ fetch_article_contents net ext arts) :
    fetchUrlText net ext c.url = some c.content := by
  rcases List.mem_filterMap.mp h with ⟨b, hb, hfb⟩
  unfold _fetch_one_article at hfb
  cases hft : fetchUrlText net ext b.url with
  | none =>
    rw [hft] at hfb
    cases hfb
  | some t =>
    rw [hft] at hfb
    have hc : ({ b with content := t } : Article) = c := by simpa using hfb
    rw [← hc]
    exact hft

theorem fetch_one_none_iff (net ext : String → Option String) (a : Article) :
    _fetch_one_article net ext a = none ↔ fetchUrlText net ext a.url = none := by
  unfold _fetch_one_article
  cases hft : fetchUrlText net ext a.url <;> simp

theorem mem_generate_summaries (raw : Article → Option (List (String × String)))
    (arts : List Article) (b : Article) :
    b ∈ generate_summaries raw arts ↔
      ∃ c ∈ arts, ∃ s, raw c = some s ∧ s ≠ [] ∧ b = { c with summary := s } := by
  unfold generate_summaries
  rw [List.mem_filterMap]
  constructor
  · rintro ⟨c, hc, hfc⟩
    cases hraw : raw c with
    | none =>
      rw [hraw] at hfc
      cases hfc
    | some s =>
      rw [hraw] at hfc
      dsimp only at hfc
      by_cases hs : s = []
      · rw [if_pos hs] at hfc
        cases hfc
      · rw [if_neg hs] at hfc
        exact ⟨c, hc, s, hraw, hs, (Option.some_inj.mp hfc).symm⟩
  · rintro ⟨c, hc, s, hraw, hs, hb⟩
    refine ⟨c, hc, ?_⟩
    rw [hraw]
    dsimp only
    rw [if_neg hs, hb]

theorem run_persisted_eq (res : Option (List Article)) (batch : List Article)
    (h : (run_candidate_mode res).persisted = some batch) : res = some batch := by
  cases res with
  | none => cases h
  | some l =>
    cases l with
    | nil => cases h
    | cons a t =>
      have : some (a :: t) = some batch := h
      rw [Option.some_inj.mp this]

theorem collect_some_eq (gnews : List Article) (prevU prevP prevT : List String)
    (net ext : String → Option String) (tokens : List String)
    (raw : Article → Option (List (String × String))) (out : List Article)
    (h : collect_candidates gnews prevU prevP prevT net ext tokens raw = some out) :
    out = generate_summaries raw (parse_filtered_articles tokens
      (fetch_article_contents net ext (dedupStage gnews prevU prevP prevT))) := by
  simp only [collect_candidates] at h
  by_cases h1 : gnews.isEmpty
  · rw [if_pos h1] at h
    cases h
  · rw [if_neg h1] at h
    by_cases h2 : (fetch_article_contents net ext
        (dedupStage gnews prevU prevP prevT)).isEmpty
    · rw [if_pos h2] at h
      cases h
    · rw [if_neg h2] at h
      by_cases h3 : (parse_filtered_articles tokens (fetch_article_contents net ext
          (dedupStage gnews prevU prevP prevT))).isEmpty
      · rw [if_pos h3] at h
        cases h
      · rw [if_neg h3] at h
        by_cases h4 : (generate_summaries raw (parse_filtered_articles tokens
            (fetch_article_contents net ext (dedupStage gnews prevU prevP prevT)))).isEmpty
        · rw [if_pos h4] at h
          cases h
        · rw [if_neg h4] at h
          exact (Option.some_inj.mp h).symm

/-- C7: a selected candidate whose full-text fetch fails is dropped with
no retry — it is absent from the content-fetch stage output and from any
persisted batch of the run — while every article of the fetch stage
output arose from a successful fetch of an input article. -/
theorem c7_fetch_failure_drops (gnews : List Article) (prevU prevP prevT : List String)
    (net ext : String → Option String) (tokens : List String)
    (raw : Article → Option (List (String × String))) (a : Article) :
    (∀ b ∈ fetch_article_contents net ext (dedupStage gnews prevU prevP prevT),
        ∃ c ∈ dedupStage gnews prevU prevP prevT, _fetch_one_article net ext c = some b)
      ∧ (_fetch_one_article net ext a = none →
          a ∉ fetch_article_contents net ext (dedupStage gnews prevU prevP prevT))
      ∧ (_fetch_one_article net ext a = none →
          ∀ batch, (run_candidate_mode
              (collect_candidates gnews prevU prevP prevT net ext tokens raw)).persisted
            = some batch → a ∉ batch) := by
  refine ⟨?_, ?_, ?_⟩
  · intro b hb
    rcases List.mem_filterMap.mp hb with ⟨c, hc, hfc⟩
    exact ⟨c, hc, hfc⟩
  · intro hnone hmem
    have hsucc := fetch_success_of_mem net ext _ a hmem
    rw [(fetch_one_none_iff net ext a).mp hnone] at hsucc
    cases hsucc
  · intro hnone batch hbatch hmem
    have hres := run_persisted_eq _ batch hbatch
    have hout := collect_some_eq gnews prevU prevP prevT net ext tokens raw batch hres
    rw [hout] at hmem
    rcases (mem_generate_summaries raw _ a).mp hmem with ⟨c, hc, s, _, _, hac⟩
    have hcf := parseFilteredGo_mem _ tokens [] c hc
    have hsucc := fetch_success_of_mem net ext _ c hcf.1
    have haurl : a.url = c.url := by rw [hac]
    have hanone := (fetch_one_none_iff net ext a).mp hnone
    rw [haurl, hsucc] at hanone
    cases hanone

/-- C9: the per-article content fetcher drops an article when the
network fetch fails, when the extraction yields nothing, and also
whenever the extracted body text is shorter than 100 characters; a kept
article stores exactly the first 5000 characters of the extracted text,
so the stored content is a prefix of it of length at most 5000. -/
theorem c9_short_text_dropped_and_truncated (net ext : String → Option String) (a : Article) :
    (net a.url = none → _fetch_one_article net ext a = none)
      ∧ (∀ d, net a.url = some d → ext d = none → _fetch_one_article net ext a = none)
      ∧ (∀ d t, net a.url = some d → ext d = some t → t.length < 100 →
          _fetch_one_article net ext a = none)
      ∧ (∀ d t, net a.url = some d → ext d = some t → ¬ t.length < 100 →
          _fetch_one_article net ext a = some { a with content := pySlice t 5000 }
            ∧ (pySlice t 5000).length ≤ 5000
            ∧ (pySlice t 5000).data <+: t.data) := by
  refine ⟨?_, ?_, ?_, ?_⟩
  · intro hnet
    simp [_fetch_one_article, fetchUrlText, hnet]
  · intro d hnet hext
    simp [_fetch_one_article, fetchUrlText, hnet, hext]
  · intro d t hnet hext hshort
    simp [_fetch_one_article, fetchUrlText, hnet, hext, hshort]
  · intro d t hnet hext hlong
    refine ⟨by simp [_fetch_one_article, fetchUrlText, hnet, hext, hlong], ?_, ?_⟩
    · show (String.mk (t.data.take 5000)).length ≤ 5000
      have : (String.mk (t.data.take 5000)).length = (t.data.take 5000).length := rfl
      rw [this, List.length_take]
      exact min_le_left _ _
    · exact List.take_prefix 5000 t.data

/-- C8 counterexample: when the Gemini response parses to the partial
object with only the headline field, generate_summary returns it without
validating any field and generate_summaries keeps the article, so a
survivor carries a summary that lacks key_points, detailed_summary and
why_it_matters — contradicting the claim that every survivor carries all
four fields. -/
theorem c8_counterexample_partial_summary :
    generate_summaries (fun _ => some [("headline", "h")]) [summaryCexArticle]
        = [{ summaryCexArticle with summary := [("headline", "h")] }]
      ∧ ¬ hasAllSummaryFields
          ({ summaryCexArticle with summary := [("headline", "h")] } : Article).summary := by
  constructor
  · rfl
  · intro hall
    have := hall "why_it_matters" (by decide)
    revert this
    decide

/-- C8 (amended): an article is dropped from the summarization stage
exactly when its summary generation fails, its response cannot be
parsed, or the parsed object is empty; every survivor carries the
non-empty parsed summary object exactly as returned — the presence of
the four individual fields is not validated, so a partial (but never an
empty) summary can be emitted. -/
theorem c8_failed_summary_drops (raw : Article → Option (List (String × String)))
    (arts : List Article) (b : Article) :
    (b ∈ generate_summaries raw arts ↔
        ∃ c ∈ arts, ∃ s, raw c = some s ∧ s ≠ [] ∧ b = { c with summary := s })
      ∧ (b ∈ generate_summaries raw arts → b.summary ≠ []) := by
  refine ⟨mem_generate_summaries raw arts b, ?_⟩
  intro hb
  rcases (mem_generate_summaries raw arts b).mp hb with ⟨c, _, s, _, hs, hbc⟩
  rw [hbc]
  exact hs

/-- C10: the direct-scrape collector's recency post-filter keeps every
article whose published_at is empty, and removes exactly the articles
whose date string is present and earlier than the cutoff. -/
theorem c10_undated_articles_pass (cutoff : String) (arts : List Article) (a : Article) :
    (a ∈ recency_post_filter cutoff arts ↔
        a ∈ arts ∧ (a.published_at = "" ∨ cutoff ≤ a.published_at))
      ∧ (a.published_at = "" → a ∈ arts → a ∈ recency_post_filter cutoff arts)
      ∧ ((a ∈ arts ∧ a ∉ recency_post_filter cutoff arts) ↔
          (a ∈ arts ∧ a.published_at ≠ "" ∧ a.published_at < cutoff)) := by
  have hmem : a ∈ recency_post_filter cutoff arts ↔
      a ∈ arts ∧ (a.published_at = "" ∨ cutoff ≤ a.published_at) := by
    unfold recency_post_filter
    rw [List.mem_filter]
    constructor
    · rintro ⟨h1, h2⟩
      refine ⟨h1, ?_⟩
      rcases Bool.or_eq_true_iff.mp h2 with h | h
      · exact Or.inl (by simpa using h)
      · exact Or.inr (of_decide_eq_true h)
    · rintro ⟨h1, h2⟩
      refine ⟨h1, ?_⟩
      rcases h2 with h | h
      · rw [Bool.or_eq_true_iff]
        exact Or.inl (by simpa using h)
      · rw [Bool.or_eq_true_iff]
        exact Or.inr (decide_eq_true h)
  refine ⟨hmem, fun he hin => hmem.mpr ⟨hin, Or.inl he⟩, ?_⟩
  constructor
  · rintro ⟨h1, h2⟩
    refine ⟨h1, ?_, ?_⟩
    · intro he
      exact h2 (hmem.mpr ⟨h1, Or.inl he⟩)
    · by_contra hlt
      exact h2 (hmem.mpr ⟨h1, Or.inr (not_lt.mp hlt)⟩)
  · rintro ⟨h1, h2, h3⟩
    refine ⟨h1, fun hin => ?_⟩
    rcases (hmem.mp hin).2 with h | h
    · exact h2 h
    · exact absurd h3 (not_lt.mpr h)

end NewsBot

